import Mathlib

/-!
# pinionCoin — verification of the spec against `src/chain.js` and `src/mining.js`

This file is a shallow embedding of the pinionCoin blockchain demo:
`CryptoBlock` and `CryptoBlockchain` from `src/chain.js`, together with the
SHA-256 hash the code obtains from `crypto-js/sha256`. JavaScript numbers in
this program are always small non-negative integers, embedded as `Nat`;
JavaScript strings are embedded as `String`; the payload `data` is embedded as
a JavaScript string payload (the genesis payload in the source is a string),
serialized through `JSON.stringify`, which wraps a string in quotes and
escapes it. The unbounded mining loop is embedded with explicit fuel, and the
failure of `obtainLatestBlock` on an empty array is embedded as `Option`.
-/

/-! ## SHA-256 over byte lists, as `crypto-js/sha256` computes it

Words are `Nat` reduced modulo `2 ^ 32 = 4294967296` wherever overflow can
occur. The digest is rendered as 64 lowercase hexadecimal characters, which is
what `.toString()` on a `crypto-js` word array produces.
-/

/-- `2 ^ 32`, the modulus for 32-bit word arithmetic. -/
def M32 : Nat := 4294967296

/-- Right rotation of a 32-bit word by `n` places. -/
def rotr32 (n x : Nat) : Nat := ((x >>> n) ||| (x <<< (32 - n))) % M32

/-- Bitwise complement of a 32-bit word. -/
def not32 (x : Nat) : Nat := x ^^^ 4294967295

/-- The `Ch` function of SHA-256. -/
def chF (x y z : Nat) : Nat := (x &&& y) ^^^ (not32 x &&& z)

/-- The `Maj` function of SHA-256. -/
def majF (x y z : Nat) : Nat := (x &&& y) ^^^ (x &&& z) ^^^ (y &&& z)

/-- The `Σ₀` function of SHA-256. -/
def bsig0 (x : Nat) : Nat := rotr32 2 x ^^^ rotr32 13 x ^^^ rotr32 22 x

/-- The `Σ₁` function of SHA-256. -/
def bsig1 (x : Nat) : Nat := rotr32 6 x ^^^ rotr32 11 x ^^^ rotr32 25 x

/-- The `σ₀` function of SHA-256. -/
def ssig0 (x : Nat) : Nat := rotr32 7 x ^^^ rotr32 18 x ^^^ (x >>> 3)

/-- The `σ₁` function of SHA-256. -/
def ssig1 (x : Nat) : Nat := rotr32 17 x ^^^ rotr32 19 x ^^^ (x >>> 10)

/-- The 64 SHA-256 round constants. -/
def K256 : List Nat :=
  [1116352408, 1899447441, 3049323471, 3921009573, 961987163, 1508970993,
   2453635748, 2870763221, 3624381080, 310598401, 607225278, 1426881987,
   1925078388, 2162078206, 2614888103, 3248222580, 3835390401, 4022224774,
   264347078, 604807628, 770255983, 1249150122, 1555081692, 1996064986,
   2554220882, 2821834349, 2952996808, 3210313671, 3336571891, 3584528711,
   113926993, 338241895, 666307205, 773529912, 1294757372, 1396182291,
   1695183700, 1986661051, 2177026350, 2456956037, 2730485921, 2820302411,
   3259730800, 3345764771, 3516065817, 3600352804, 4094571909, 275423344,
   430227734, 506948616, 659060556, 883997877, 958139571, 1322822218,
   1537002063, 1747873779, 1955562222, 2024104815, 2227730452, 2361852424,
   2428436474, 2756734187, 3204031479, 3329325298]

/-- The initial SHA-256 state. -/
def H256 : List Nat :=
  [1779033703, 3144134277, 1013904242, 2773480762,
   1359893119, 2600822924, 528734635, 1541459225]

/-- Big-endian byte decomposition of `x` into `k` bytes. -/
def toBytesBE : Nat → Nat → List Nat
  | 0, _ => []
  | k + 1, x => toBytesBE k (x / 256) ++ [x % 256]

/-- SHA-256 padding: append `0x80`, zero bytes to 56 mod 64, then the
bit length as 8 big-endian bytes. -/
def padMessage (msg : List Nat) : List Nat :=
  msg ++ [128] ++ List.replicate ((119 - msg.length % 64) % 64) 0
      ++ toBytesBE 8 (msg.length * 8)

/-- Group bytes into big-endian 32-bit words. -/
def bytesToWords : List Nat → List Nat
  | b0 :: b1 :: b2 :: b3 :: rest =>
      (((b0 * 256 + b1) * 256 + b2) * 256 + b3) :: bytesToWords rest
  | _ => []

/-- Extend the 16 message words to the 64-word schedule; `acc` holds the
words produced so far in reverse order, `t` counts remaining extensions. -/
def extendSchedule : Nat → List Nat → List Nat
  | 0, acc => acc.reverse
  | t + 1, acc =>
      extendSchedule t
        ((ssig1 (acc.getD 1 0) + acc.getD 6 0 + ssig0 (acc.getD 14 0)
            + acc.getD 15 0) % M32 :: acc)

/-- The 64-word message schedule from the 16 words of one block. -/
def schedule (ws : List Nat) : List Nat := extendSchedule 48 ws.reverse

/-- One round of the SHA-256 compression function on the 8-word state. -/
def compressRound (st : List Nat) (kw : Nat × Nat) : List Nat :=
  match st with
  | [a, b, c, d, e, f, g, h] =>
      let t1 := (h + bsig1 e + chF e f g + kw.1 + kw.2) % M32
      let t2 := (bsig0 a + majF a b c) % M32
      [(t1 + t2) % M32, a, b, c, (d + t1) % M32, e, f, g]
  | other => other

/-- Process one 16-word block, updating the 8-word chaining state. -/
def processBlock (hs ws : List Nat) : List Nat :=
  let st := (K256.zip (schedule ws)).foldl compressRound hs
  (hs.zip st).map fun p => (p.1 + p.2) % M32

/-- Process the padded byte stream 64 bytes at a time; the first argument is
fuel bounding the number of blocks (one block consumes 64 bytes, so the byte
count is always enough fuel). Structural recursion on the fuel keeps the
function reducible by the kernel. -/
def processChunksF : Nat → List Nat → List Nat → List Nat
  | _, hs, [] => hs
  | 0, hs, _ => hs
  | f + 1, hs, b :: rest =>
      processChunksF f (processBlock hs (bytesToWords ((b :: rest).take 64)))
        (rest.drop 63)

/-- Process the padded byte stream 64 bytes at a time. -/
def processChunks (hs : List Nat) (bytes : List Nat) : List Nat :=
  processChunksF bytes.length hs bytes

/-- The hexadecimal digit for `n < 16`, lowercase. -/
def hexDigit (n : Nat) : Char :=
  if n < 10 then Char.ofNat (48 + n) else Char.ofNat (87 + n)

/-- Render a 32-bit word as 8 hexadecimal characters. -/
def wordToHex (x : Nat) : List Char :=
  (List.range 8).map fun i => hexDigit ((x >>> ((7 - i) * 4)) &&& 15)

/-- UTF-8 encoding of one character as bytes. -/
def utf8EncodeChar (c : Char) : List Nat :=
  let n := c.toNat
  if n < 128 then [n]
  else if n < 2048 then [192 + n / 64, 128 + n % 64]
  else if n < 65536 then [224 + n / 4096, 128 + n / 64 % 64, 128 + n % 64]
  else [240 + n / 262144, 128 + n / 4096 % 64, 128 + n / 64 % 64, 128 + n % 64]

/-- UTF-8 encoding of a string as bytes. -/
def utf8Bytes (s : String) : List Nat := (s.data.map utf8EncodeChar).flatten

/-- SHA-256 of a string, as the lowercase 64-character hexadecimal digest
returned by `crypto-js/sha256` followed by `.toString()`. -/
def sha256 (s : String) : String :=
  String.mk (((processChunks H256 (padMessage (utf8Bytes s))).map wordToHex).flatten)

/-! ## JSON.stringify on string payloads

`computeHash` serializes the payload with `JSON.stringify` (src/chain.js line
38). For a JavaScript string payload this wraps the string in double quotes,
escaping the quote, the backslash and control characters. -/

/-- The escape sequence `JSON.stringify` emits for one character of a string. -/
def jsonEscapeChar (c : Char) : List Char :=
  if c = '"' then ['\\', '"']
  else if c = '\\' then ['\\', '\\']
  else if c = '\x08' then ['\\', 'b']
  else if c = '\x09' then ['\\', 't']
  else if c = '\x0a' then ['\\', 'n']
  else if c = '\x0c' then ['\\', 'f']
  else if c = '\x0d' then ['\\', 'r']
  else if c.toNat < 32 then
    ['\\', 'u', '0', '0', hexDigit (c.toNat / 16), hexDigit (c.toNat % 16)]
  else [c]

/-- `JSON.stringify` of a JavaScript string payload. -/
def jsonStringify (s : String) : String :=
  String.mk ('"' :: (s.data.map jsonEscapeChar).flatten ++ ['"'])

/-! ## `CryptoBlock` (src/chain.js lines 6–59) -/

/-- The fields of a `CryptoBlock` object. After the constructor finishes,
`nonce` is always a number, so it is embedded as `Nat`; during the constructor
run itself `this.nonce` is briefly `undefined`, which only matters inside
`CryptoBlock.new` below. -/
structure CryptoBlock where
  index : Nat
  timestamp : String
  data : String
  precedingHash : String
  hash : String
  nonce : Nat
deriving DecidableEq

/-- `computeHash` (src/chain.js lines 33–41): SHA-256 of the concatenation
`index + precedingHash + timestamp + JSON.stringify(data) + nonce`, where the
numbers `index` and `nonce` are converted to decimal strings by the
JavaScript `+` operator. -/
def CryptoBlock.computeHash (b : CryptoBlock) : String :=
  sha256 (Nat.repr b.index ++ b.precedingHash ++ b.timestamp
    ++ jsonStringify b.data ++ Nat.repr b.nonce)

/-- The `CryptoBlock` constructor (src/chain.js lines 19–26). The source sets
`this.hash = this.computeHash()` on line 24 *before* `this.nonce = 0` on line
25, so when the hash is computed `this.nonce` is still `undefined`, and
JavaScript string concatenation renders it as the string "undefined". The
source declares the default parameter value `precedingHash = " "`; here the
argument is explicit and callers that omit it in the source pass `" "`. -/
def CryptoBlock.new (index : Nat) (timestamp data precedingHash : String) :
    CryptoBlock :=
  { index := index, timestamp := timestamp, data := data
    precedingHash := precedingHash
    hash := sha256 (Nat.repr index ++ precedingHash ++ timestamp
      ++ jsonStringify data ++ "undefined")
    nonce := 0 }

/-- The string built by `Array(difficulty + 1).join("0")` on line 53 of
src/chain.js: the character 0 repeated `difficulty` times. -/
def zeroTarget (difficulty : Nat) : String :=
  String.mk (List.replicate difficulty '0')

/-- The body of the `proofOfWork` loop (src/chain.js lines 55–56):
`this.nonce++` followed by `this.hash = this.computeHash()`, so the hash is
recomputed with the already incremented nonce. -/
def mineStep (b : CryptoBlock) : CryptoBlock :=
  let b1 : CryptoBlock := { b with nonce := b.nonce + 1 }
  { b1 with hash := b1.computeHash }

/-- `proofOfWork` (src/chain.js lines 51–58), with explicit fuel bounding the
number of loop iterations: while the first `difficulty` characters of the hash
(JavaScript `substring(0, difficulty)`, embedded as `String.take`) differ from
`zeroTarget difficulty`, increment `nonce` and recompute `hash`. Returns
`none` when the loop has not exited within `fuel` iterations. -/
def proofOfWorkF (fuel : Nat) (b : CryptoBlock) (difficulty : Nat) :
    Option CryptoBlock :=
  if b.hash.take difficulty = zeroTarget difficulty then some b
  else
    match fuel with
    | 0 => none
    | f + 1 => proofOfWorkF f (mineStep b) difficulty

/-! ## `CryptoBlockchain` (src/chain.js lines 64–147) -/

/-- The fields of a `CryptoBlockchain` object. -/
structure CryptoBlockchain where
  blockchain : List CryptoBlock
  difficulty : Nat
deriving DecidableEq

/-- `startGenesisBlock` (src/chain.js lines 84–91). -/
def startGenesisBlock : CryptoBlock :=
  CryptoBlock.new 0 "01/01/2020" "Initial Block in the Chain" "0"

/-- The `CryptoBlockchain` constructor (src/chain.js lines 71–76). The source
constructor declares no parameters, so an argument supplied at a call site —
as in src/mining.js line 3, which passes `difficulty = 5` — is ignored, and
the difficulty is set to the literal 4. -/
def CryptoBlockchain.new (_passedDifficulty : Nat) : CryptoBlockchain :=
  { blockchain := [startGenesisBlock], difficulty := 4 }

/-- `obtainLatestBlock` (src/chain.js lines 99–103): the element at position
`length - 1`. On an empty array the JavaScript expression evaluates to
`undefined`, embedded as `none`. -/
def CryptoBlockchain.obtainLatestBlock (c : CryptoBlockchain) :
    Option CryptoBlock :=
  c.blockchain[c.blockchain.length - 1]?

/-- `addNewBlock` (src/chain.js lines 115–120), with explicit fuel for the
embedded mining loop: set `newBlock.precedingHash` to the hash of the latest
block, run `proofOfWork(this.difficulty)`, and push the mined block onto the
chain. `none` embeds the two failure modes: the runtime error of reading
`.hash` of `undefined` on an empty chain, and the mining loop not terminating
within `fuel` iterations. -/
def CryptoBlockchain.addNewBlock (fuel : Nat) (c : CryptoBlockchain)
    (newBlock : CryptoBlock) : Option CryptoBlockchain :=
  match c.obtainLatestBlock with
  | none => none
  | some latest =>
      match proofOfWorkF fuel { newBlock with precedingHash := latest.hash }
          c.difficulty with
      | none => none
      | some mined => some { c with blockchain := c.blockchain ++ [mined] }

/-- JavaScript strict inequality between a string value and a function value.
Line 136 of src/chain.js reads `currentBlock.hash !== currentBlock.computeHash`
— without parentheses after `computeHash` — so it compares the stored hash
string against the method value itself, not against a recomputed hash. In
JavaScript, strict comparison between a string and a function is always
unequal, so this test is `true` for every block. -/
def strNeqFun (_s : String) (_f : CryptoBlock → String) : Bool := true

/-- The body of the `checkChainValidity` loop (src/chain.js lines 132–143),
walking the adjacent pairs `(blockchain[i-1], blockchain[i])` for `i` from 1:
return false if the line-136 comparison fires, return false if
`currentBlock.precedingHash !== precedingBlock.hash`, otherwise continue. -/
def checkFrom : CryptoBlock → List CryptoBlock → Bool
  | _, [] => true
  | precedingBlock, currentBlock :: rest =>
      if strNeqFun currentBlock.hash CryptoBlock.computeHash then false
      else if currentBlock.precedingHash != precedingBlock.hash then false
      else checkFrom currentBlock rest

/-- `checkChainValidity` (src/chain.js lines 131–146). -/
def CryptoBlockchain.checkChainValidity (c : CryptoBlockchain) : Bool :=
  match c.blockchain with
  | [] => true
  | b0 :: rest => checkFrom b0 rest

/-- The chains reachable through the public interface: construct the chain,
then append blocks solely via `addNewBlock` (with any fuel for which the
mining loop terminates). -/
inductive Reachable : CryptoBlockchain → Prop
  | init (d : Nat) : Reachable (CryptoBlockchain.new d)
  | step {c c2 : CryptoBlockchain} {b : CryptoBlock} (fuel : Nat) :
      Reachable c → c.addNewBlock fuel b = some c2 → Reachable c2

/-! ## Concrete blocks and chains used in witnesses

Blocks are plain records, so a witness can use blocks with arbitrary stored
hash strings; a chain record with difficulty 0 makes the embedded mining loop
exit on its first test, which keeps witness evaluation cheap. -/

/-- A concrete block standing at the head of witness chains. -/
def wG : CryptoBlock := ⟨0, "tg", "dg", "0", "hg", 0⟩

/-- A concrete block a witness appends via `addNewBlock`. -/
def wB : CryptoBlock := ⟨1, "tb", "db", " ", "0hb", 0⟩

/-- `wB` after `addNewBlock` on a difficulty-0 chain ending in `wG`: only the
`precedingHash` field changes, since the mining loop exits immediately. -/
def wBmined : CryptoBlock := ⟨1, "tb", "db", "hg", "0hb", 0⟩

/-- A concrete one-block chain with difficulty 0. -/
def wChain : CryptoBlockchain := ⟨[wG], 0⟩

/-- `wChain` after appending `wB`. -/
def wChain2 : CryptoBlockchain := ⟨[wG, wBmined], 0⟩

/-! ## General lemmas about the embedded operations -/

/-- SHA-256 matches the FIPS 180-4 test vector for "abc". -/
theorem sha256_abc :
    sha256 "abc" = "ba7816bf8f01cfea414140de5dae2223b00361a396177a9cb410ff61f20015ad" := by
  decide

/-- SHA-256 matches the FIPS 180-4 test vector for the empty string. -/
theorem sha256_empty :
    sha256 "" = "e3b0c44298fc1c149afbf4c8996fb92427ae41e4649b934ca495991b7852b855" := by
  decide

/-- Because the line-136 comparison is true for every block, the validity loop
returns false as soon as it inspects any block. -/
theorem checkFrom_cons (p b : CryptoBlock) (rest : List CryptoBlock) :
    checkFrom p (b :: rest) = false := by
  simp [checkFrom, strNeqFun]

/-- Any chain with at least two blocks fails `checkChainValidity`. -/
theorem checkChainValidity_cons_cons (g b : CryptoBlock) (rest : List CryptoBlock)
    (d : Nat) :
    CryptoBlockchain.checkChainValidity ⟨g :: b :: rest, d⟩ = false := by
  simp [CryptoBlockchain.checkChainValidity, checkFrom_cons]

/-- The mining loop returns its block unchanged when the stored hash already
meets the target. -/
theorem proofOfWorkF_done (fuel : Nat) (b : CryptoBlock) (d : Nat)
    (hc : b.hash.take d = zeroTarget d) : proofOfWorkF fuel b d = some b := by
  cases fuel <;> simp [proofOfWorkF, hc]

/-- With no fuel left and the target unmet, the mining loop is cut off. -/
theorem proofOfWorkF_zero (b : CryptoBlock) (d : Nat)
    (hc : ¬b.hash.take d = zeroTarget d) : proofOfWorkF 0 b d = none := by
  simp [proofOfWorkF, hc]

/-- One iteration of the mining loop: increment the nonce, recompute the hash. -/
theorem proofOfWorkF_step (f : Nat) (b : CryptoBlock) (d : Nat)
    (hc : ¬b.hash.take d = zeroTarget d) :
    proofOfWorkF (f + 1) b d = proofOfWorkF f (mineStep b) d := by
  simp [proofOfWorkF, hc]

/-- Whenever the mining loop terminates, the resulting hash starts with
`difficulty` zero characters. -/
theorem proofOfWorkF_some_take {fuel : Nat} :
    ∀ {b b2 : CryptoBlock} {d : Nat}, proofOfWorkF fuel b d = some b2 →
      b2.hash.take d = zeroTarget d := by
  induction fuel with
  | zero =>
      intro b b2 d h
      by_cases hc : b.hash.take d = zeroTarget d
      · rw [proofOfWorkF_done 0 b d hc] at h
        injection h with h2
        subst h2
        exact hc
      · rw [proofOfWorkF_zero b d hc] at h
        simp at h
  | succ f ih =>
      intro b b2 d h
      by_cases hc : b.hash.take d = zeroTarget d
      · rw [proofOfWorkF_done (f + 1) b d hc] at h
        injection h with h2
        subst h2
        exact hc
      · rw [proofOfWorkF_step f b d hc] at h
        exact ih h

/-- One mining iteration does not change the index. -/
theorem mineStep_index (b : CryptoBlock) : (mineStep b).index = b.index := by
  simp [mineStep]

/-- One mining iteration does not change the timestamp. -/
theorem mineStep_timestamp (b : CryptoBlock) :
    (mineStep b).timestamp = b.timestamp := by
  simp [mineStep]

/-- One mining iteration does not change the payload. -/
theorem mineStep_data (b : CryptoBlock) : (mineStep b).data = b.data := by
  simp [mineStep]

/-- One mining iteration does not change the preceding hash. -/
theorem mineStep_precedingHash (b : CryptoBlock) :
    (mineStep b).precedingHash = b.precedingHash := by
  simp [mineStep]

/-- The mining loop only ever touches `nonce` and `hash`: the index, the
timestamp, the payload and the preceding hash come out unchanged. -/
theorem proofOfWorkF_some_fields {fuel : Nat} :
    ∀ {b b2 : CryptoBlock} {d : Nat}, proofOfWorkF fuel b d = some b2 →
      b2.index = b.index ∧ b2.timestamp = b.timestamp ∧ b2.data = b.data ∧
        b2.precedingHash = b.precedingHash := by
  induction fuel with
  | zero =>
      intro b b2 d h
      by_cases hc : b.hash.take d = zeroTarget d
      · rw [proofOfWorkF_done 0 b d hc] at h
        injection h with h2
        subst h2
        exact ⟨rfl, rfl, rfl, rfl⟩
      · rw [proofOfWorkF_zero b d hc] at h
        simp at h
  | succ f ih =>
      intro b b2 d h
      by_cases hc : b.hash.take d = zeroTarget d
      · rw [proofOfWorkF_done (f + 1) b d hc] at h
        injection h with h2
        subst h2
        exact ⟨rfl, rfl, rfl, rfl⟩
      · rw [proofOfWorkF_step f b d hc] at h
        obtain ⟨hi, ht, hd, hph⟩ := ih h
        exact ⟨hi.trans (mineStep_index b), ht.trans (mineStep_timestamp b),
          hd.trans (mineStep_data b), hph.trans (mineStep_precedingHash b)⟩

/-- Anatomy of a successful `addNewBlock` call: the latest block was read, the
mining loop terminated on the relinked block, and the mined block was pushed. -/
theorem addNewBlock_some {fuel : Nat} {c : CryptoBlockchain} {b : CryptoBlock}
    {c2 : CryptoBlockchain} (h : CryptoBlockchain.addNewBlock fuel c b = some c2) :
    ∃ latest mined, c.obtainLatestBlock = some latest ∧
      proofOfWorkF fuel { b with precedingHash := latest.hash } c.difficulty
        = some mined ∧
      c2 = { c with blockchain := c.blockchain ++ [mined] } := by
  unfold CryptoBlockchain.addNewBlock at h
  cases hl : c.obtainLatestBlock with
  | none => simp [hl] at h
  | some latest =>
      simp only [hl] at h
      cases hp : proofOfWorkF fuel { b with precedingHash := latest.hash }
          c.difficulty with
      | none => simp [hp] at h
      | some mined =>
          simp only [hp, Option.some.injEq] at h
          exact ⟨latest, mined, rfl, hp, h.symm⟩

/-- Reading the latest block of a chain whose block list ends in `m` gives `m`. -/
theorem obtainLatestBlock_append (l : List CryptoBlock) (m : CryptoBlock) (d : Nat) :
    CryptoBlockchain.obtainLatestBlock ⟨l ++ [m], d⟩ = some m := by
  simp [CryptoBlockchain.obtainLatestBlock, List.getElem?_concat_length]

/-- A chain whose latest block can be read holds at least one block. -/
theorem blockchain_ne_nil_of_latest {c : CryptoBlockchain} {latest : CryptoBlock}
    (h : c.obtainLatestBlock = some latest) : c.blockchain ≠ [] := by
  intro hnil
  rw [CryptoBlockchain.obtainLatestBlock, hnil] at h
  simp at h

/-- Any block list holding at least two blocks fails the validity scan. -/
theorem checkChainValidity_false_of_length (blocks : List CryptoBlock) (d : Nat)
    (h : 2 ≤ blocks.length) :
    CryptoBlockchain.checkChainValidity ⟨blocks, d⟩ = false := by
  cases blocks with
  | nil => simp at h
  | cons g rest =>
      cases rest with
      | nil => simp at h
      | cons b rest2 => exact checkChainValidity_cons_cons g b rest2 d

/-! ## The claims -/

/-- C1: the claim states that a chain built only through the public interface
(construct, then append via addNewBlock) satisfies checkChainValidity = true,
and that the end-to-end scenario of two appended blocks gives a chain of
length 3 reporting true. The code does the opposite: line 136 of src/chain.js
compares the stored hash string against the uncalled method value
computeHash, which is never strictly equal, so every chain holding at least
one appended block fails the scan. This theorem shows that after any
successful addNewBlock call the chain reports false. -/
theorem c1_addNewBlock_invalidates (fuel : Nat) (c : CryptoBlockchain)
    (b : CryptoBlock) (c2 : CryptoBlockchain)
    (h : CryptoBlockchain.addNewBlock fuel c b = some c2) :
    c2.checkChainValidity = false := by
  obtain ⟨latest, mined, hl, hp, hc2⟩ := addNewBlock_some h
  subst hc2
  have hne := blockchain_ne_nil_of_latest hl
  have hpos : 0 < c.blockchain.length := List.length_pos.mpr hne
  apply checkChainValidity_false_of_length
  rw [List.length_append]
  simp only [List.length_cons, List.length_nil]
  omega

/-- C1 witness: a concrete successful addNewBlock call on a difficulty-0
chain, after which checkChainValidity is false. -/
theorem c1_witness :
    CryptoBlockchain.addNewBlock 1 wChain wB = some wChain2 ∧
      wChain2.checkChainValidity = false :=
  ⟨by decide, c1_addNewBlock_invalidates 1 wChain wB wChain2 (by decide)⟩

/-- C2: the claim states that the Block constructor yields nonce = 0 and a
hash field equal to computeHash over the supplied fields with nonce 0. The
nonce does end up 0, but line 24 of src/chain.js computes the hash before
line 25 assigns the nonce, so the hashed string ends in "undefined" instead
of "0": at the concrete input (1, "t1", "d1", " ") the stored hash differs
from computeHash of the constructed block, whose nonce is 0. -/
theorem c2_constructor_hash_stale :
    (CryptoBlock.new 1 "t1" "d1" " ").nonce = 0 ∧
      (CryptoBlock.new 1 "t1" "d1" " ").hash
        ≠ (CryptoBlock.new 1 "t1" "d1" " ").computeHash :=
  ⟨rfl, by decide⟩

/-- C3: the claim states that every block at rest satisfies
hash = computeHash over its current fields, and in particular that the stored
genesis hash equals computeHash of the genesis fields with nonce 0. The
genesis block violates this at rest: its stored hash was computed while the
nonce was still undefined, so it differs from computeHash of its fields,
whose nonce is 0. -/
theorem c3_genesis_at_rest_violated :
    startGenesisBlock.nonce = 0 ∧
      startGenesisBlock.hash ≠ startGenesisBlock.computeHash :=
  ⟨rfl, by decide⟩

/-- C4 counterexample: the claim states the Chain constructor sets the
difficulty of the chain to the supplied argument; constructing with argument
5 — exactly the call in src/mining.js line 3 — yields difficulty 4, not 5. -/
theorem c4_counterexample : (CryptoBlockchain.new 5).difficulty ≠ 5 := by
  decide

/-- C4 amended: the Chain constructor ignores any supplied difficulty
argument and always sets the difficulty of the chain to 4. -/
theorem c4_difficulty_always_four (d : Nat) :
    (CryptoBlockchain.new d).difficulty = 4 := rfl

/-- C5: for every difficulty d and every block, whenever proofOfWork(d)
terminates, the resulting hash has its first d characters all equal to the
character 0. -/
theorem c5_proofOfWork_leading_zeros (fuel difficulty : Nat) (b b2 : CryptoBlock)
    (h : proofOfWorkF fuel b difficulty = some b2) :
    b2.hash.take difficulty = String.mk (List.replicate difficulty '0') :=
  proofOfWorkF_some_take h

/-- C5 witness: a concrete block whose stored hash already starts with one
zero, mined at difficulty 1. -/
theorem c5_witness :
    proofOfWorkF 1 ⟨1, "tw", "dw", "p", "0abc", 0⟩ 1
        = some ⟨1, "tw", "dw", "p", "0abc", 0⟩ ∧
      (⟨1, "tw", "dw", "p", "0abc", 0⟩ : CryptoBlock).hash.take 1
        = String.mk (List.replicate 1 '0') :=
  ⟨by decide,
    c5_proofOfWork_leading_zeros 1 1 ⟨1, "tw", "dw", "p", "0abc", 0⟩
      ⟨1, "tw", "dw", "p", "0abc", 0⟩ (by decide)⟩

/-- C6: after a successful addNewBlock(b), the appended block carries the
index, timestamp and payload of b; its precedingHash equals the hash of the
block previously at the tail (the one obtainLatestBlock returned before the
call); it is appended as the new last element; and obtainLatestBlock now
returns it, so the latest hash is its hash. -/
theorem c6_addNewBlock_links (fuel : Nat) (c : CryptoBlockchain) (b : CryptoBlock)
    (c2 : CryptoBlockchain) (h : CryptoBlockchain.addNewBlock fuel c b = some c2) :
    ∃ latest mined,
      c.obtainLatestBlock = some latest ∧
      mined.precedingHash = latest.hash ∧
      mined.index = b.index ∧ mined.timestamp = b.timestamp ∧
      mined.data = b.data ∧
      c2.blockchain = c.blockchain ++ [mined] ∧
      c2.obtainLatestBlock = some mined := by
  obtain ⟨latest, mined, hl, hp, hc2⟩ := addNewBlock_some h
  obtain ⟨hi, ht, hd, hph⟩ := proofOfWorkF_some_fields hp
  subst hc2
  exact ⟨latest, mined, hl, by simpa using hph, by simpa using hi,
    by simpa using ht, by simpa using hd, rfl,
    obtainLatestBlock_append c.blockchain mined c.difficulty⟩

/-- C6 witness: the concrete difficulty-0 append of wB onto wChain. -/
theorem c6_witness :
    ∃ latest mined,
      wChain.obtainLatestBlock = some latest ∧
      mined.precedingHash = latest.hash ∧
      mined.index = wB.index ∧ mined.timestamp = wB.timestamp ∧
      mined.data = wB.data ∧
      wChain2.blockchain = wChain.blockchain ++ [mined] ∧
      wChain2.obtainLatestBlock = some mined :=
  c6_addNewBlock_links 1 wChain wB wChain2 (by decide)

/-- C7: on a freshly constructed chain, which holds only the genesis block,
checkChainValidity returns true, because the scan loop never runs. -/
theorem c7_fresh_chain_valid (d : Nat) :
    (CryptoBlockchain.new d).checkChainValidity = true := rfl

/-- C8: in any chain with at least one non-genesis block, mutating a
non-genesis block in place — replacing it by a block with the same stored
hash but differing in some other field — makes checkChainValidity return
false. (With the line-136 comparison the scan in fact returns false for any
chain of length at least two, mutated or not.) -/
theorem c8_tamper_invalidates (g orig tampered : CryptoBlock)
    (l1 l2 : List CryptoBlock) (d : Nat)
    (hhash : tampered.hash = orig.hash) (hne : tampered ≠ orig) :
    CryptoBlockchain.checkChainValidity ⟨g :: l1 ++ tampered :: l2, d⟩ = false := by
  cases l1 with
  | nil => exact checkChainValidity_cons_cons g tampered l2 d
  | cons x xs => exact checkChainValidity_cons_cons g x (xs ++ tampered :: l2) d

/-- C8 witness: tampering with the payload of the appended block of wChain2
while keeping its stored hash. -/
theorem c8_witness :
    ((⟨1, "tb", "dX", "hg", "0hb", 0⟩ : CryptoBlock).hash = wBmined.hash ∧
      (⟨1, "tb", "dX", "hg", "0hb", 0⟩ : CryptoBlock) ≠ wBmined) ∧
      CryptoBlockchain.checkChainValidity
        ⟨[wG, ⟨1, "tb", "dX", "hg", "0hb", 0⟩], 0⟩ = false :=
  ⟨⟨by decide, by decide⟩,
    c8_tamper_invalidates wG wBmined ⟨1, "tb", "dX", "hg", "0hb", 0⟩ [] [] 0
      (by decide) (by decide)⟩

/-- C9: every chain reachable from construction by addNewBlock calls has a
non-empty block sequence, and obtainLatestBlock returns its last element
without failing. -/
theorem c9_obtainLatestBlock_total (c : CryptoBlockchain) (h : Reachable c) :
    c.blockchain ≠ [] ∧
      ∃ lastB, c.obtainLatestBlock = some lastB ∧
        c.blockchain.getLast? = some lastB := by
  induction h with
  | init d => exact ⟨by simp [CryptoBlockchain.new], startGenesisBlock, rfl, rfl⟩
  | step fuel hr hstep ih =>
      obtain ⟨latest, mined, hl, hp, hc2⟩ := addNewBlock_some hstep
      subst hc2
      refine ⟨by simp, mined,
        obtainLatestBlock_append _ mined _, ?_⟩
      simp

/-- C9 witness: the freshly constructed chain. -/
theorem c9_witness :
    (CryptoBlockchain.new 0).blockchain ≠ [] ∧
      ∃ lastB, (CryptoBlockchain.new 0).obtainLatestBlock = some lastB ∧
        (CryptoBlockchain.new 0).blockchain.getLast? = some lastB :=
  c9_obtainLatestBlock_total (CryptoBlockchain.new 0) (Reachable.init 0)

/-- C10: a successful addNewBlock call only appends the mined block: the
difficulty is unchanged and every block stored before the call is still
there, in place, in front of the single appended element. -/
theorem c10_addNewBlock_frame (fuel : Nat) (c : CryptoBlockchain)
    (b : CryptoBlock) (c2 : CryptoBlockchain)
    (h : CryptoBlockchain.addNewBlock fuel c b = some c2) :
    c2.difficulty = c.difficulty ∧
      c2.blockchain.take c.blockchain.length = c.blockchain ∧
      ∃ mined, c2.blockchain = c.blockchain ++ [mined] := by
  obtain ⟨latest, mined, hl, hp, hc2⟩ := addNewBlock_some h
  subst hc2
  exact ⟨rfl, List.take_left c.blockchain [mined], mined, rfl⟩

/-- C10 witness: the concrete difficulty-0 append of wB onto wChain. -/
theorem c10_witness :
    wChain2.difficulty = wChain.difficulty ∧
      wChain2.blockchain.take wChain.blockchain.length = wChain.blockchain ∧
      ∃ mined, wChain2.blockchain = wChain.blockchain ++ [mined] :=
  c10_addNewBlock_frame 1 wChain wB wChain2 (by decide)
